import Mathlib

/-!
Verification of the lazy key-material adapter
`client-py/casperlabs_client/key_holders/secp256k1.py` (`SECP256K1Key`).

The class holds four lazily populated slots (`_private_key_pem`,
`_private_key`, `_public_key_pem`, `_public_key`); each property accessor
derives a missing slot from the others, caches the result, and delegates the
elliptic-curve arithmetic to the `ecdsa` primitive library.  We embed the
state of one `SECP256K1Key` object as a record of four `Option` fields, the
primitive library as a record of pure byte-level functions (each of which may
fail, modelling a raised exception, by returning `none`), and every property
accessor as an explicit state transformer that also records the list of
primitive-library invocations it performed.
-/

namespace Secp256k1

/-- Raw byte strings (Python `bytes`) as lists of byte values. -/
abbrev Bytes := List Nat

/-- The four lazily populated slots of a `SECP256K1Key` object, in the order
of the constructor parameters: `_private_key_pem`, `_private_key`,
`_public_key_pem`, `_public_key`.  `none` models a Python `None`. -/
structure KeyState where
  private_key_pem : Option Bytes
  private_key     : Option Bytes
  public_key_pem  : Option Bytes
  public_key      : Option Bytes
  deriving DecidableEq, Repr

/-- The `ecdsa` primitive-library capability, collapsed to byte-level
operations (each intermediate `SigningKey`/`VerifyingKey` object in the
source is constructed, used once and discarded, so we fuse each
construction/use pair into one function).  A `none` result models an
exception raised by the library (e.g. malformed PEM, or raw bytes whose
length does not match the bound curve):
* `skToPem raw` is `SigningKey.from_string(raw, curve).to_pem()`;
* `skFromPem pem` is `SigningKey.from_pem(pem).to_string()`;
* `vkToPem pub` is `VerifyingKey.from_string(pub, curve).to_pem()`;
* `vkFromPem pem` is `VerifyingKey.from_pem(pem).to_string()`;
* `derivePublic raw` is `SigningKey.from_string(raw, curve).verifying_key.to_string()`;
* `signBytes raw data` is `SigningKey.from_string(raw, curve).sign(data)`;
* `genSK entropy` is `SigningKey.generate(curve).to_string()`, indexed by
  the entropy drawn from the library's secure random source. -/
structure ECPrimitive where
  skToPem      : Bytes → Option Bytes
  skFromPem    : Bytes → Option Bytes
  vkToPem      : Bytes → Option Bytes
  vkFromPem    : Bytes → Option Bytes
  derivePublic : Bytes → Option Bytes
  signBytes    : Bytes → Bytes → Option Bytes
  genSK        : Nat → Bytes

/-- The errors an accessor can surface.  `missingPrivate` is the
`ValueError("Must have either _private_key or _private_key_pem.")` raised by
the two private accessors; `noValuesForPublic` is the
`ValueError("No values given to derive public key")` raised by `public_key`;
`decodeFailure` is any exception propagated unchanged from the `ecdsa`
primitive library. -/
inductive KeyErr
  | missingPrivate
  | noValuesForPublic
  | decodeFailure
  deriving DecidableEq, Repr

/-- Result of one accessor or sign call: a returned byte string, or a raised
error. -/
inductive RES
  | ok  (value : Bytes)
  | err (e : KeyErr)
  deriving DecidableEq, Repr

/-- One invocation of the primitive library, with its argument, recorded so
that redundant-derivation claims are observable. -/
inductive PrimCall
  | skToPem      (raw : Bytes)
  | skFromPem    (pem : Bytes)
  | vkToPem      (pub : Bytes)
  | vkFromPem    (pem : Bytes)
  | derivePublic (raw : Bytes)
  | signBytes    (raw data : Bytes)
  deriving DecidableEq, Repr

/-- Outcome of one call on a `SECP256K1Key` object: the result (value or
raised error), the state of the object afterwards (Python exceptions leave
the mutated object alive, so the post-state is meaningful on errors too),
and the primitive-library calls performed. -/
structure Outcome where
  res   : RES
  st    : KeyState
  calls : List PrimCall
  deriving DecidableEq, Repr

/-- The `private_key` property:
`if self._private_key is None: if self._private_key_pem is None: raise ...;
self._private_key = ecdsa.SigningKey.from_pem(self._private_key_pem).to_string()`. -/
def privateKeyAcc (P : ECPrimitive) (s : KeyState) : Outcome :=
  match s.private_key with
  | some raw => ⟨RES.ok raw, s, []⟩
  | none =>
    match s.private_key_pem with
    | none => ⟨RES.err KeyErr.missingPrivate, s, []⟩
    | some pem =>
      match P.skFromPem pem with
      | none => ⟨RES.err KeyErr.decodeFailure, s, [PrimCall.skFromPem pem]⟩
      | some raw =>
        ⟨RES.ok raw, { s with private_key := some raw }, [PrimCall.skFromPem pem]⟩

/-- The `private_key_pem` property:
`if self._private_key_pem is None: if self._private_key is None: raise ...;
self._private_key_pem = ecdsa.SigningKey.from_string(self._private_key, curve).to_pem()`. -/
def privateKeyPemAcc (P : ECPrimitive) (s : KeyState) : Outcome :=
  match s.private_key_pem with
  | some pem => ⟨RES.ok pem, s, []⟩
  | none =>
    match s.private_key with
    | none => ⟨RES.err KeyErr.missingPrivate, s, []⟩
    | some raw =>
      match P.skToPem raw with
      | none => ⟨RES.err KeyErr.decodeFailure, s, [PrimCall.skToPem raw]⟩
      | some pem =>
        ⟨RES.ok pem, { s with private_key_pem := some pem }, [PrimCall.skToPem raw]⟩

/-- The `elif self.private_key: ... else: raise` tail of the `public_key`
property.  Note that `self.private_key` is a *property access*: it can raise
(propagating `missingPrivate`/`decodeFailure`), and when it succeeds it may
have cached `_private_key`; the `elif` then tests the returned bytes by
truthiness, so empty bytes fall through to the
`ValueError("No values given to derive public key")`.  On the truthy branch
the source re-reads `self.private_key` (now cached, so no further primitive
call) and computes
`ecdsa.SigningKey.from_string(raw, curve).verifying_key.to_string()`. -/
def publicFromPrivate (P : ECPrimitive) (s : KeyState) : Outcome :=
  match privateKeyAcc P s with
  | ⟨RES.err e, s1, t⟩ => ⟨RES.err e, s1, t⟩
  | ⟨RES.ok raw, s1, t⟩ =>
    if raw.isEmpty then ⟨RES.err KeyErr.noValuesForPublic, s1, t⟩
    else
      match P.derivePublic raw with
      | none => ⟨RES.err KeyErr.decodeFailure, s1, t ++ [PrimCall.derivePublic raw]⟩
      | some pub =>
        ⟨RES.ok pub, { s1 with public_key := some pub }, t ++ [PrimCall.derivePublic raw]⟩

/-- The `public_key` property:
`if self._public_key is None:` then `if self._public_key_pem:` (a
*truthiness* test: both `None` and the empty byte string fall through)
decode the PEM, `elif self.private_key:` derive from the private scalar,
`else:` raise `ValueError("No values given to derive public key")`. -/
def publicKeyAcc (P : ECPrimitive) (s : KeyState) : Outcome :=
  match s.public_key with
  | some pub => ⟨RES.ok pub, s, []⟩
  | none =>
    match s.public_key_pem with
    | some pem =>
      if pem.isEmpty then publicFromPrivate P s
      else
        match P.vkFromPem pem with
        | none => ⟨RES.err KeyErr.decodeFailure, s, [PrimCall.vkFromPem pem]⟩
        | some pub =>
          ⟨RES.ok pub, { s with public_key := some pub }, [PrimCall.vkFromPem pem]⟩
    | none => publicFromPrivate P s

/-- The `public_key_pem` property:
`if self._public_key_pem is None:
self._public_key_pem = ecdsa.VerifyingKey.from_string(self.public_key, curve).to_pem()`.
The inner `self.public_key` is a property access that can itself raise or
cache `_public_key` (and transitively `_private_key`). -/
def publicKeyPemAcc (P : ECPrimitive) (s : KeyState) : Outcome :=
  match s.public_key_pem with
  | some pem => ⟨RES.ok pem, s, []⟩
  | none =>
    match publicKeyAcc P s with
    | ⟨RES.err e, s1, t⟩ => ⟨RES.err e, s1, t⟩
    | ⟨RES.ok pub, s1, t⟩ =>
      match P.vkToPem pub with
      | none => ⟨RES.err KeyErr.decodeFailure, s1, t ++ [PrimCall.vkToPem pub]⟩
      | some pem =>
        ⟨RES.ok pem, { s1 with public_key_pem := some pem }, t ++ [PrimCall.vkToPem pub]⟩

/-- The `sign` method:
`ecdsa.SigningKey.from_string(self.private_key, curve).sign(data)` — the
`self.private_key` property access raises `missingPrivate` when no private
material exists rather than falling back to anything else. -/
def signOp (P : ECPrimitive) (s : KeyState) (data : Bytes) : Outcome :=
  match privateKeyAcc P s with
  | ⟨RES.err e, s1, t⟩ => ⟨RES.err e, s1, t⟩
  | ⟨RES.ok raw, s1, t⟩ =>
    match P.signBytes raw data with
    | none => ⟨RES.err KeyErr.decodeFailure, s1, t ++ [PrimCall.signBytes raw data]⟩
    | some sig => ⟨RES.ok sig, s1, t ++ [PrimCall.signBytes raw data]⟩

/-- Modelled from the spec: the `KeyHolder` base-class constructor (file
`key_holders/key_holder.py`, not under `src/`) stores the four optional
fields verbatim — "accepts any combination of {private_raw, private_pem,
public_raw, public_pem}; no combination is rejected at construction time".
Parameter order follows the `SECP256K1Key.__init__` signature. -/
def mkKey (private_key_pem private_key public_key_pem public_key : Option Bytes) :
    KeyState :=
  ⟨private_key_pem, private_key, public_key_pem, public_key⟩

/-- The static `generate` method:
`SECP256K1Key(private_key=ecdsa.SigningKey.generate(curve).to_string())` —
the fresh random scalar is modelled by indexing the library's secure random
source with an `entropy` value. -/
def generate (P : ECPrimitive) (entropy : Nat) : KeyState :=
  mkKey none (some (P.genSK entropy)) none none

/-- The four property accessors, named. -/
inductive Acc
  | privPem
  | privRaw
  | pubPem
  | pubRaw
  deriving DecidableEq, Repr

/-- Run one named accessor. -/
def runAcc (P : ECPrimitive) (a : Acc) (s : KeyState) : Outcome :=
  match a with
  | Acc.privPem => privateKeyPemAcc P s
  | Acc.privRaw => privateKeyAcc P s
  | Acc.pubPem  => publicKeyPemAcc P s
  | Acc.pubRaw  => publicKeyAcc P s

/-- One observable operation on a `SECP256K1Key` object: a property access
or a `sign` call. -/
inductive Op
  | acc  (a : Acc)
  | sign (data : Bytes)
  deriving DecidableEq, Repr

/-- Run one operation. -/
def runOp (P : ECPrimitive) (o : Op) (s : KeyState) : Outcome :=
  match o with
  | Op.acc a  => runAcc P a s
  | Op.sign d => signOp P s d

/-- Thread a sequence of operations through the object, keeping the final
state (results are read off with one more `runOp`). -/
def runOps (P : ECPrimitive) (ops : List Op) (s : KeyState) : KeyState :=
  match ops with
  | [] => s
  | o :: rest => runOps P rest (runOp P o s).st

/-- The slot an accessor computes and caches. -/
def slotOf (a : Acc) (s : KeyState) : Option Bytes :=
  match a with
  | Acc.privPem => s.private_key_pem
  | Acc.privRaw => s.private_key
  | Acc.pubPem  => s.public_key_pem
  | Acc.pubRaw  => s.public_key

/-- A concrete, executable stand-in for the `ecdsa` library, used to
evaluate the accessors at concrete inputs.  It mirrors the real library's
failure modes: raw-bytes constructors insist on the bound curve's length
(here 2), while `from_pem` reads the curve from the PEM itself and therefore
accepts encodings of any length (as the real `SigningKey.from_pem` accepts a
PEM of a foreign curve, whose raw form then has the wrong length for
secp256k1). -/
def toyPrim : ECPrimitive where
  skToPem raw := if raw.length = 2 then some (1 :: raw) else none
  skFromPem pem :=
    match pem with
    | 1 :: raw => some raw
    | _ => none
  vkToPem pub := if pub.length = 2 then some (2 :: pub) else none
  vkFromPem pem :=
    match pem with
    | 2 :: pub => if pub.length = 2 then some pub else none
    | _ => none
  derivePublic raw :=
    if raw.length = 2 then some (raw.map (fun n => n + 100)) else none
  signBytes raw data := if raw.length = 2 then some (raw ++ data) else none
  genSK e := [e % 256, (e / 256) % 256]

/-- The private scalar the accessor chain for `private_key` yields on `s`:
either the populated raw slot, or the decoding of the populated PEM slot. -/
def PrivGives (P : ECPrimitive) (s : KeyState) (raw : Bytes) : Prop :=
  s.private_key = some raw ∨
    (s.private_key = none ∧
      ∃ pem, s.private_key_pem = some pem ∧ P.skFromPem pem = some raw)

/-- Accessor `private_key` only ever writes the `_private_key` slot. -/
theorem privAcc_frame (P : ECPrimitive) (s : KeyState) :
    (privateKeyAcc P s).st.private_key_pem = s.private_key_pem ∧
    (privateKeyAcc P s).st.public_key_pem = s.public_key_pem ∧
    (privateKeyAcc P s).st.public_key = s.public_key := by
  cases hk : s.private_key with
  | some raw => simp [privateKeyAcc, hk]
  | none =>
    cases hkp : s.private_key_pem with
    | none => simp [privateKeyAcc, hk, hkp]
    | some pem =>
      cases hf : P.skFromPem pem <;> simp [privateKeyAcc, hk, hkp, hf]

/-- Accessor `private_key_pem` only ever writes the `_private_key_pem` slot. -/
theorem privPemAcc_frame (P : ECPrimitive) (s : KeyState) :
    (privateKeyPemAcc P s).st.private_key = s.private_key ∧
    (privateKeyPemAcc P s).st.public_key_pem = s.public_key_pem ∧
    (privateKeyPemAcc P s).st.public_key = s.public_key := by
  cases hkp : s.private_key_pem with
  | some pem => simp [privateKeyPemAcc, hkp]
  | none =>
    cases hk : s.private_key with
    | none => simp [privateKeyPemAcc, hk, hkp]
    | some raw =>
      cases hf : P.skToPem raw <;> simp [privateKeyPemAcc, hk, hkp, hf]

/-- The private-derivation tail of `public_key` never touches the two PEM
slots. -/
theorem pubFromPriv_frame (P : ECPrimitive) (s : KeyState) :
    (publicFromPrivate P s).st.private_key_pem = s.private_key_pem ∧
    (publicFromPrivate P s).st.public_key_pem = s.public_key_pem := by
  have hf := privAcc_frame P s
  cases hpa : privateKeyAcc P s with
  | mk r s1 t =>
    rw [hpa] at hf
    have hf1 : s1.private_key_pem = s.private_key_pem := hf.1
    have hf2 : s1.public_key_pem = s.public_key_pem := hf.2.1
    cases r with
    | err e => simp [publicFromPrivate, hpa, hf1, hf2]
    | ok raw =>
      cases hie : raw.isEmpty with
      | true => simp [publicFromPrivate, hpa, hie, hf1, hf2]
      | false =>
        cases hd : P.derivePublic raw <;>
          simp [publicFromPrivate, hpa, hie, hd, hf1, hf2]

/-- Accessor `public_key` never touches the two PEM slots. -/
theorem pubAcc_frame (P : ECPrimitive) (s : KeyState) :
    (publicKeyAcc P s).st.private_key_pem = s.private_key_pem ∧
    (publicKeyAcc P s).st.public_key_pem = s.public_key_pem := by
  cases hp : s.public_key with
  | some pub => simp [publicKeyAcc, hp]
  | none =>
    cases hpp : s.public_key_pem with
    | none => simpa [publicKeyAcc, hp, hpp] using pubFromPriv_frame P s
    | some pem =>
      cases hie : pem.isEmpty with
      | true => simpa [publicKeyAcc, hp, hpp, hie] using pubFromPriv_frame P s
      | false =>
        cases hv : P.vkFromPem pem <;> simp [publicKeyAcc, hp, hpp, hie, hv]

/-- Claim C1 (code evidence): with all four fields absent, the `public_key`
property raises the missing-private-material `ValueError` (the `elif
self.private_key:` condition evaluates the `private_key` property, which
raises), not the `"No values given to derive public key"` error of the
`else` branch, which is unreachable in this state. -/
theorem spec_C1 (P : ECPrimitive) :
    (publicKeyAcc P (mkKey none none none none)).res
        = RES.err KeyErr.missingPrivate ∧
    (publicKeyAcc P (mkKey none none none none)).res
        ≠ RES.err KeyErr.noValuesForPublic := by
  constructor <;> simp [publicKeyAcc, publicFromPrivate, privateKeyAcc, mkKey]

/-- Claim C2: on an object with no private field populated (only public material),
`sign` with any message, `private_key` and `private_key_pem` all raise the
missing-private-material error and never return a value. -/
theorem spec_C2 (P : ECPrimitive) (s : KeyState)
    (hraw : s.private_key = none) (hpem : s.private_key_pem = none)
    (_hpub : s.public_key ≠ none ∨ s.public_key_pem ≠ none) :
    (∀ data, (signOp P s data).res = RES.err KeyErr.missingPrivate) ∧
    (privateKeyAcc P s).res = RES.err KeyErr.missingPrivate ∧
    (privateKeyPemAcc P s).res = RES.err KeyErr.missingPrivate := by
  have hp : privateKeyAcc P s = ⟨RES.err KeyErr.missingPrivate, s, []⟩ := by
    simp [privateKeyAcc, hraw, hpem]
  refine ⟨fun data => ?_, ?_, ?_⟩
  · simp [signOp, hp]
  · simp [hp]
  · simp [privateKeyPemAcc, hraw, hpem]

/-- Claim C2 witness: a public-raw-only object, signing the message `[1]`. -/
theorem spec_C2_witness :
    (signOp toyPrim (mkKey none none none (some [7, 8])) [1]).res
      = RES.err KeyErr.missingPrivate :=
  (spec_C2 toyPrim (mkKey none none none (some [7, 8])) rfl rfl
    (Or.inl (by decide))).1 [1]

/-- Claim C3 counterexample: an object whose `private_key` slot holds a valid raw
key but whose `public_key_pem` slot holds a (truthy) byte string the
primitive cannot decode — requesting `public_key` raises instead of
succeeding, refuting "at least one private field populated implies
`public_raw` always succeeds". -/
theorem spec_C3_counterexample :
    (mkKey none (some [3, 4]) (some [9, 9, 9]) none).private_key = some [3, 4] ∧
    (publicKeyAcc toyPrim (mkKey none (some [3, 4]) (some [9, 9, 9]) none)).res
      = RES.err KeyErr.decodeFailure := by decide

/-- Claim C3 (amended): when the private chain yields a usable raw key, the
primitive succeeds on it, and neither public slot is populated, both
`public_key` and `public_key_pem` succeed; and each value is cached, so an
immediately repeated request returns the same value with zero
primitive-library calls. -/
theorem spec_C3 (P : ECPrimitive) (s : KeyState) (raw pub pem2 : Bytes)
    (hg : PrivGives P s raw) (hne : raw ≠ [])
    (hder : P.derivePublic raw = some pub) (hpem : P.vkToPem pub = some pem2)
    (h1 : s.public_key = none) (h2 : s.public_key_pem = none) :
    (publicKeyAcc P s).res = RES.ok pub ∧
    (publicKeyAcc P (publicKeyAcc P s).st).res = RES.ok pub ∧
    (publicKeyAcc P (publicKeyAcc P s).st).calls = [] ∧
    (publicKeyPemAcc P s).res = RES.ok pem2 ∧
    (publicKeyPemAcc P (publicKeyPemAcc P s).st).res = RES.ok pem2 ∧
    (publicKeyPemAcc P (publicKeyPemAcc P s).st).calls = [] := by
  have hie : raw.isEmpty = false := by
    cases raw with
    | nil => exact absurd rfl hne
    | cons a l => rfl
  have hpa :
      ∃ s1 t, privateKeyAcc P s = ⟨RES.ok raw, s1, t⟩ ∧
        s1.public_key = none ∧ s1.public_key_pem = none := by
    rcases hg with hk | ⟨hk, pem, hkp, hf⟩
    · exact ⟨s, [], by simp [privateKeyAcc, hk], h1, h2⟩
    · exact ⟨{ s with private_key := some raw }, [PrimCall.skFromPem pem],
        by simp [privateKeyAcc, hk, hkp, hf], by simpa using h1, by simpa using h2⟩
  rcases hpa with ⟨s1, t, hpa, hs1p, hs1pp⟩
  have hpf :
      publicFromPrivate P s
        = ⟨RES.ok pub, { s1 with public_key := some pub },
            t ++ [PrimCall.derivePublic raw]⟩ := by
    simp [publicFromPrivate, hpa, hie, hder]
  have hpk :
      publicKeyAcc P s
        = ⟨RES.ok pub, { s1 with public_key := some pub },
            t ++ [PrimCall.derivePublic raw]⟩ := by
    simp [publicKeyAcc, h1, h2, hpf]
  have hpk2 :
      publicKeyAcc P (publicKeyAcc P s).st
        = ⟨RES.ok pub, { s1 with public_key := some pub }, []⟩ := by
    rw [hpk]
    simp [publicKeyAcc]
  have hppem :
      publicKeyPemAcc P s
        = ⟨RES.ok pem2,
            { s1 with public_key := some pub, public_key_pem := some pem2 },
            (t ++ [PrimCall.derivePublic raw]) ++ [PrimCall.vkToPem pub]⟩ := by
    simp [publicKeyPemAcc, h2, hpk, hpem]
  have hppem2 :
      publicKeyPemAcc P (publicKeyPemAcc P s).st
        = ⟨RES.ok pem2,
            { s1 with public_key := some pub, public_key_pem := some pem2 }, []⟩ := by
    rw [hppem]
    simp [publicKeyPemAcc]
  exact ⟨by simp [hpk], by simp [hpk2], by simp [hpk2],
    by simp [hppem], by simp [hppem2], by simp [hppem2]⟩

/-- Claim C3 witness: a private-raw-only object under the concrete primitive. -/
theorem spec_C3_witness :
    (publicKeyAcc toyPrim (mkKey none (some [3, 4]) none none)).res
      = RES.ok [103, 104] :=
  (spec_C3 toyPrim (mkKey none (some [3, 4]) none none) [3, 4] [103, 104]
    [2, 103, 104] (Or.inl rfl) (by decide) (by decide) (by decide) rfl rfl).1

/-- Claim C5 counterexample: an object holding only a private PEM that decodes to
raw bytes of the wrong length for the curve (as happens with a PEM of a
foreign curve).  Requesting `public_key` fails, yet the failed call has
cached `_private_key` — the state is not what it was before the call. -/
theorem spec_C5_counterexample :
    (publicKeyAcc toyPrim (mkKey (some [1, 5, 6, 7]) none none none)).res
      = RES.err KeyErr.decodeFailure ∧
    (mkKey (some [1, 5, 6, 7]) none none none).private_key = none ∧
    (publicKeyAcc toyPrim (mkKey (some [1, 5, 6, 7]) none none none)).st.private_key
      = some [5, 6, 7] := by decide

/-- Claim C5 (amended): a failing accessor never caches a value for the slot it
computes — that slot is exactly as it was before the call (nested accessor
calls that succeeded before the failure may have cached their own slots). -/
theorem spec_C5 (P : ECPrimitive) (s : KeyState) (a : Acc) (e : KeyErr)
    (h : (runAcc P a s).res = RES.err e) :
    slotOf a (runAcc P a s).st = slotOf a s := by
  cases a with
  | privRaw =>
    cases hk : s.private_key with
    | some raw => simp [runAcc, privateKeyAcc, hk] at h
    | none =>
      cases hkp : s.private_key_pem with
      | none => simp [runAcc, privateKeyAcc, slotOf, hk, hkp]
      | some pem =>
        cases hf : P.skFromPem pem with
        | none => simp [runAcc, privateKeyAcc, slotOf, hk, hkp, hf]
        | some raw => simp [runAcc, privateKeyAcc, hk, hkp, hf] at h
  | privPem =>
    cases hkp : s.private_key_pem with
    | some pem => simp [runAcc, privateKeyPemAcc, hkp] at h
    | none =>
      cases hk : s.private_key with
      | none => simp [runAcc, privateKeyPemAcc, slotOf, hk, hkp]
      | some raw =>
        cases hf : P.skToPem raw with
        | none => simp [runAcc, privateKeyPemAcc, slotOf, hk, hkp, hf]
        | some pem => simp [runAcc, privateKeyPemAcc, hk, hkp, hf] at h
  | pubRaw =>
    have hfr := privAcc_frame P s
    cases hp : s.public_key with
    | some pub => simp [runAcc, publicKeyAcc, hp] at h
    | none =>
      have hpf :
          (publicFromPrivate P s).res = RES.err e →
            (publicFromPrivate P s).st.public_key = s.public_key := by
        intro he
        cases hpa : privateKeyAcc P s with
        | mk r s1 t =>
          rw [hpa] at hfr
          have hfr3 : s1.public_key = s.public_key := hfr.2.2
          cases r with
          | err e1 => simp [publicFromPrivate, hpa, hfr3]
          | ok raw =>
            cases hie : raw.isEmpty with
            | true => simp [publicFromPrivate, hpa, hie, hfr3]
            | false =>
              cases hd : P.derivePublic raw with
              | none => simp [publicFromPrivate, hpa, hie, hd, hfr3]
              | some pub => simp [publicFromPrivate, hpa, hie, hd] at he
      cases hpp : s.public_key_pem with
      | none =>
        have he : (publicFromPrivate P s).res = RES.err e := by
          simpa [runAcc, publicKeyAcc, hp, hpp] using h
        simpa [runAcc, publicKeyAcc, slotOf, hp, hpp] using hpf he
      | some pem =>
        cases hie : pem.isEmpty with
        | true =>
          have he : (publicFromPrivate P s).res = RES.err e := by
            simpa [runAcc, publicKeyAcc, hp, hpp, hie] using h
          simpa [runAcc, publicKeyAcc, slotOf, hp, hpp, hie] using hpf he
        | false =>
          cases hv : P.vkFromPem pem with
          | none => simp [runAcc, publicKeyAcc, slotOf, hp, hpp, hie, hv]
          | some pub => simp [runAcc, publicKeyAcc, hp, hpp, hie, hv] at h
  | pubPem =>
    have hfr := pubAcc_frame P s
    cases hpp : s.public_key_pem with
    | some pem => simp [runAcc, publicKeyPemAcc, hpp] at h
    | none =>
      cases hpk : publicKeyAcc P s with
      | mk r s1 t =>
        rw [hpk] at hfr
        have hfr2 : s1.public_key_pem = s.public_key_pem := hfr.2
        cases r with
        | err e1 => simp [runAcc, publicKeyPemAcc, slotOf, hpp, hpk, hfr2]
        | ok pub =>
          cases hv : P.vkToPem pub with
          | none => simp [runAcc, publicKeyPemAcc, slotOf, hpp, hpk, hv, hfr2]
          | some pem => simp [runAcc, publicKeyPemAcc, hpp, hpk, hv] at h

/-- Claim C5 witness: `public_key` on a garbage public PEM fails and leaves the
`_public_key` slot as it was. -/
theorem spec_C5_witness :
    slotOf Acc.pubRaw
        (runAcc toyPrim Acc.pubRaw (mkKey none none (some [9]) none)).st
      = slotOf Acc.pubRaw (mkKey none none (some [9]) none) :=
  spec_C5 toyPrim (mkKey none none (some [9]) none) Acc.pubRaw
    KeyErr.decodeFailure (by decide)

/-- Claim C7: assuming the primitive library's private PEM round-trip law (the
spec's trusted-primitive property), constructing from `private_key = p`,
reading `private_key_pem`, constructing a second object from that PEM and
reading `private_key` returns exactly `p`. -/
theorem spec_C7 (P : ECPrimitive) (p pm0 : Bytes)
    (hlaw : ∀ q pm, P.skToPem q = some pm → P.skFromPem pm = some q)
    (henc : P.skToPem p = some pm0) :
    ∃ pm, (privateKeyPemAcc P (mkKey none (some p) none none)).res = RES.ok pm ∧
      (privateKeyAcc P (mkKey (some pm) none none none)).res = RES.ok p := by
  refine ⟨pm0, ?_, ?_⟩
  · simp [privateKeyPemAcc, mkKey, henc]
  · simp [privateKeyAcc, mkKey, hlaw p pm0 henc]

/-- Claim C7 witness: the concrete primitive satisfies the round-trip law, and the
round trip through two objects returns the original scalar. -/
theorem spec_C7_witness :
    ∃ pm, (privateKeyPemAcc toyPrim (mkKey none (some [3, 4]) none none)).res
        = RES.ok pm ∧
      (privateKeyAcc toyPrim (mkKey (some pm) none none none)).res
        = RES.ok [3, 4] :=
  spec_C7 toyPrim [3, 4] [1, 3, 4]
    (fun q pm h => by
      by_cases hq : q.length = 2
      · have hpm : pm = 1 :: q := by
          simp [toyPrim, hq] at h
          exact h.symm
        subst hpm
        simp [toyPrim]
      · simp [toyPrim, hq] at h)
    (by decide)

/-- Claim C8: `generate` returns an object with exactly the `_private_key` slot
populated (with the scalar drawn from the primitive's secure random source)
and the other three slots absent. -/
theorem spec_C8 (P : ECPrimitive) (entropy : Nat) :
    (generate P entropy).private_key = some (P.genSK entropy) ∧
    (generate P entropy).private_key_pem = none ∧
    (generate P entropy).public_key_pem = none ∧
    (generate P entropy).public_key = none :=
  ⟨rfl, rfl, rfl, rfl⟩

/-- Claim C9: on an object with `public_key_pem` populated with the *empty* byte
string (falsy, but present) and a private raw key populated, `public_key`
skips the PEM slot (it never invokes the PEM decoder) and derives the point
from the private scalar; by contrast, the `private_key` accessor tests by
is-`None`, so an empty `_private_key` is returned as-is rather than skipped. -/
theorem spec_C9 (P : ECPrimitive) (raw pub : Bytes)
    (hne : raw ≠ []) (hder : P.derivePublic raw = some pub) :
    (publicKeyAcc P (mkKey none (some raw) (some []) none)).res = RES.ok pub ∧
    (∀ pem, PrimCall.vkFromPem pem ∉
        (publicKeyAcc P (mkKey none (some raw) (some []) none)).calls) ∧
    (privateKeyAcc P (mkKey none (some []) none none)).res = RES.ok [] := by
  have hie : raw.isEmpty = false := by
    cases raw with
    | nil => exact absurd rfl hne
    | cons a l => rfl
  refine ⟨?_, ?_, ?_⟩
  · simp [publicKeyAcc, publicFromPrivate, privateKeyAcc, mkKey, hie, hder]
  · intro pem
    simp [publicKeyAcc, publicFromPrivate, privateKeyAcc, mkKey, hie, hder]
  · simp [privateKeyAcc, mkKey]

/-- Claim C9 witness: the empty public PEM is skipped and the public key is
derived from the private scalar. -/
theorem spec_C9_witness :
    (publicKeyAcc toyPrim (mkKey none (some [3, 4]) (some []) none)).res
      = RES.ok [103, 104] :=
  (spec_C9 toyPrim [3, 4] [103, 104] (by decide) (by decide)).1

/-- Claim C10: a successful `sign` leaves `_public_key`, `_public_key_pem` and
`_private_key_pem` exactly as they were; afterwards `_private_key` holds the
scalar (unchanged if it was already populated, else freshly decoded from the
private PEM), and the signature is a function of that scalar and the message
only. -/
theorem spec_C10 (P : ECPrimitive) (s : KeyState) (data sig : Bytes)
    (h : (signOp P s data).res = RES.ok sig) :
    (signOp P s data).st.public_key = s.public_key ∧
    (signOp P s data).st.public_key_pem = s.public_key_pem ∧
    (signOp P s data).st.private_key_pem = s.private_key_pem ∧
    ∃ raw, (signOp P s data).st.private_key = some raw ∧
      (s.private_key = some raw ∨
        (s.private_key = none ∧
          ∃ pem, s.private_key_pem = some pem ∧ P.skFromPem pem = some raw)) ∧
      P.signBytes raw data = some sig := by
  cases hk : s.private_key with
  | some raw =>
    have hpa : privateKeyAcc P s = ⟨RES.ok raw, s, []⟩ := by
      simp [privateKeyAcc, hk]
    cases hsb : P.signBytes raw data with
    | none => simp [signOp, hpa, hsb] at h
    | some sig1 =>
      have hsig : sig1 = sig := by simpa [signOp, hpa, hsb] using h
      subst hsig
      refine ⟨by simp [signOp, hpa, hsb], by simp [signOp, hpa, hsb],
        by simp [signOp, hpa, hsb], raw, by simp [signOp, hpa, hsb, hk],
        Or.inl rfl, hsb⟩
  | none =>
    cases hkp : s.private_key_pem with
    | none => simp [signOp, privateKeyAcc, hk, hkp] at h
    | some pem =>
      cases hf : P.skFromPem pem with
      | none => simp [signOp, privateKeyAcc, hk, hkp, hf] at h
      | some raw =>
        have hpa :
            privateKeyAcc P s
              = ⟨RES.ok raw, { s with private_key := some raw },
                  [PrimCall.skFromPem pem]⟩ := by
          simp [privateKeyAcc, hk, hkp, hf]
        cases hsb : P.signBytes raw data with
        | none => simp [signOp, hpa, hsb] at h
        | some sig1 =>
          have hsig : sig1 = sig := by simpa [signOp, hpa, hsb] using h
          subst hsig
          refine ⟨by simp [signOp, hpa, hsb], by simp [signOp, hpa, hsb],
            by simp [signOp, hpa, hsb, hkp], raw,
            by simp [signOp, hpa, hsb], ?_, hsb⟩
          right
          exact ⟨rfl, pem, rfl, hf⟩

/-- Result of the `private_key` accessor as a function of the two private
slots only. -/
def privRes (P : ECPrimitive) (k kp : Option Bytes) : RES :=
  match k with
  | some raw => RES.ok raw
  | none =>
    match kp with
    | none => RES.err KeyErr.missingPrivate
    | some pem =>
      match P.skFromPem pem with
      | none => RES.err KeyErr.decodeFailure
      | some raw => RES.ok raw

/-- Characterization: the `private_key` result reads only the two private
slots. -/
theorem privateKeyAcc_res (P : ECPrimitive) (s : KeyState) :
    (privateKeyAcc P s).res = privRes P s.private_key s.private_key_pem := by
  cases hk : s.private_key with
  | some raw => simp [privateKeyAcc, privRes, hk]
  | none =>
    cases hkp : s.private_key_pem with
    | none => simp [privateKeyAcc, privRes, hk, hkp]
    | some pem =>
      cases hf : P.skFromPem pem <;> simp [privateKeyAcc, privRes, hk, hkp, hf]

/-- Result of the `private_key_pem` accessor as a function of the two
private slots only. -/
def privPemRes (P : ECPrimitive) (kp k : Option Bytes) : RES :=
  match kp with
  | some pem => RES.ok pem
  | none =>
    match k with
    | none => RES.err KeyErr.missingPrivate
    | some raw =>
      match P.skToPem raw with
      | none => RES.err KeyErr.decodeFailure
      | some pem => RES.ok pem

/-- Characterization: the `private_key_pem` result reads only the two
private slots. -/
theorem privateKeyPemAcc_res (P : ECPrimitive) (s : KeyState) :
    (privateKeyPemAcc P s).res = privPemRes P s.private_key_pem s.private_key := by
  cases hkp : s.private_key_pem with
  | some pem => simp [privateKeyPemAcc, privPemRes, hkp]
  | none =>
    cases hk : s.private_key with
    | none => simp [privateKeyPemAcc, privPemRes, hk, hkp]
    | some raw =>
      cases hf : P.skToPem raw <;> simp [privateKeyPemAcc, privPemRes, hk, hkp, hf]

/-- Result of the private-derivation tail of `public_key` as a function of
the `private_key` accessor's result. -/
def pubFromPrivRes (P : ECPrimitive) (r : RES) : RES :=
  match r with
  | RES.err e => RES.err e
  | RES.ok raw =>
    if raw.isEmpty then RES.err KeyErr.noValuesForPublic
    else
      match P.derivePublic raw with
      | none => RES.err KeyErr.decodeFailure
      | some pub => RES.ok pub

/-- Characterization of `publicFromPrivate`'s result. -/
theorem publicFromPrivate_res (P : ECPrimitive) (s : KeyState) :
    (publicFromPrivate P s).res = pubFromPrivRes P (privateKeyAcc P s).res := by
  cases hpa : privateKeyAcc P s with
  | mk r s1 t =>
    cases r with
    | err e => simp [publicFromPrivate, pubFromPrivRes, hpa]
    | ok raw =>
      cases hie : raw.isEmpty with
      | true => simp [publicFromPrivate, pubFromPrivRes, hpa, hie]
      | false =>
        cases hd : P.derivePublic raw <;>
          simp [publicFromPrivate, pubFromPrivRes, hpa, hie, hd]

/-- Result of the `public_key` accessor as a function of the two public
slots and the `private_key` result. -/
def pubRes (P : ECPrimitive) (p pp : Option Bytes) (pr : RES) : RES :=
  match p with
  | some pub => RES.ok pub
  | none =>
    match pp with
    | some pem =>
      if pem.isEmpty then pubFromPrivRes P pr
      else
        match P.vkFromPem pem with
        | none => RES.err KeyErr.decodeFailure
        | some pub => RES.ok pub
    | none => pubFromPrivRes P pr

/-- Characterization of the `public_key` result. -/
theorem publicKeyAcc_res (P : ECPrimitive) (s : KeyState) :
    (publicKeyAcc P s).res
      = pubRes P s.public_key s.public_key_pem (privateKeyAcc P s).res := by
  cases hp : s.public_key with
  | some pub => simp [publicKeyAcc, pubRes, hp]
  | none =>
    cases hpp : s.public_key_pem with
    | none => simpa [publicKeyAcc, pubRes, hp, hpp] using publicFromPrivate_res P s
    | some pem =>
      cases hie : pem.isEmpty with
      | true =>
        simpa [publicKeyAcc, pubRes, hp, hpp, hie] using publicFromPrivate_res P s
      | false =>
        cases hv : P.vkFromPem pem <;> simp [publicKeyAcc, pubRes, hp, hpp, hie, hv]

/-- Result of the `public_key_pem` accessor as a function of its own slot
and the `public_key` result. -/
def pubPemRes (P : ECPrimitive) (pp : Option Bytes) (pubr : RES) : RES :=
  match pp with
  | some pem => RES.ok pem
  | none =>
    match pubr with
    | RES.err e => RES.err e
    | RES.ok pub =>
      match P.vkToPem pub with
      | none => RES.err KeyErr.decodeFailure
      | some pem => RES.ok pem

/-- Characterization of the `public_key_pem` result. -/
theorem publicKeyPemAcc_res (P : ECPrimitive) (s : KeyState) :
    (publicKeyPemAcc P s).res
      = pubPemRes P s.public_key_pem (publicKeyAcc P s).res := by
  cases hpp : s.public_key_pem with
  | some pem => simp [publicKeyPemAcc, pubPemRes, hpp]
  | none =>
    cases hpk : publicKeyAcc P s with
    | mk r s1 t =>
      cases r with
      | err e => simp [publicKeyPemAcc, pubPemRes, hpp, hpk]
      | ok pub =>
        cases hv : P.vkToPem pub <;> simp [publicKeyPemAcc, pubPemRes, hpp, hpk, hv]

/-- Result of `sign` as a function of the `private_key` result and the
message. -/
def signRes (P : ECPrimitive) (pr : RES) (data : Bytes) : RES :=
  match pr with
  | RES.err e => RES.err e
  | RES.ok raw =>
    match P.signBytes raw data with
    | none => RES.err KeyErr.decodeFailure
    | some sig => RES.ok sig

/-- Characterization of the `sign` result. -/
theorem signOp_res (P : ECPrimitive) (s : KeyState) (data : Bytes) :
    (signOp P s data).res = signRes P (privateKeyAcc P s).res data := by
  cases hpa : privateKeyAcc P s with
  | mk r s1 t =>
    cases r with
    | err e => simp [signOp, signRes, hpa]
    | ok raw =>
      cases hsb : P.signBytes raw data <;> simp [signOp, signRes, hpa, hsb]

/-- Claim C10 witness: signing with a raw private key leaves every other slot
untouched. -/
theorem spec_C10_witness :
    (signOp toyPrim (mkKey none (some [3, 4]) none none) [9]).st.private_key_pem
      = (mkKey none (some [3, 4]) none none).private_key_pem :=
  (spec_C10 toyPrim (mkKey none (some [3, 4]) none none) [9] [3, 4, 9]
    (by decide)).2.2.1

/-- How one operation may move the object's state: each slot is either left
exactly as it was, or filled (when it was absent) with the canonical value
derived from the pre-state.  A filled `_public_key_pem` additionally implies
`_public_key` ended up cached with the point it encodes, because the
`public_key_pem` property computes `self.public_key` first. -/
structure GoodStep (P : ECPrimitive) (s t : KeyState) : Prop where
  priv : t.private_key = s.private_key ∨
    (s.private_key = none ∧ ∃ pem raw, s.private_key_pem = some pem ∧
      P.skFromPem pem = some raw ∧ t.private_key = some raw)
  privPem : t.private_key_pem = s.private_key_pem ∨
    (s.private_key_pem = none ∧ ∃ raw pem, s.private_key = some raw ∧
      P.skToPem raw = some pem ∧ t.private_key_pem = some pem)
  pub : t.public_key = s.public_key ∨
    (s.public_key = none ∧ ∃ pub, (publicKeyAcc P s).res = RES.ok pub ∧
      t.public_key = some pub)
  pubPem : t.public_key_pem = s.public_key_pem ∨
    (s.public_key_pem = none ∧ ∃ pub pem, (publicKeyAcc P s).res = RES.ok pub ∧
      P.vkToPem pub = some pem ∧ t.public_key_pem = some pem ∧
      t.public_key = some pub)

/-- Doing nothing is a good step. -/
theorem goodStep_refl (P : ECPrimitive) (s : KeyState) : GoodStep P s s :=
  ⟨Or.inl rfl, Or.inl rfl, Or.inl rfl, Or.inl rfl⟩

/-- The `private_key` accessor makes a good step. -/
theorem goodStep_privAcc (P : ECPrimitive) (s : KeyState) :
    GoodStep P s (privateKeyAcc P s).st := by
  cases hk : s.private_key with
  | some raw =>
    have hst : (privateKeyAcc P s).st = s := by simp [privateKeyAcc, hk]
    rw [hst]
    exact goodStep_refl P s
  | none =>
    cases hkp : s.private_key_pem with
    | none =>
      have hst : (privateKeyAcc P s).st = s := by simp [privateKeyAcc, hk, hkp]
      rw [hst]
      exact goodStep_refl P s
    | some pem =>
      cases hf : P.skFromPem pem with
      | none =>
        have hst : (privateKeyAcc P s).st = s := by
          simp [privateKeyAcc, hk, hkp, hf]
        rw [hst]
        exact goodStep_refl P s
      | some raw =>
        have hst : (privateKeyAcc P s).st = { s with private_key := some raw } := by
          simp [privateKeyAcc, hk, hkp, hf]
        rw [hst]
        exact ⟨Or.inr ⟨hk, pem, raw, hkp, hf, rfl⟩, Or.inl rfl, Or.inl rfl,
          Or.inl rfl⟩

/-- The `private_key_pem` accessor makes a good step. -/
theorem goodStep_privPemAcc (P : ECPrimitive) (s : KeyState) :
    GoodStep P s (privateKeyPemAcc P s).st := by
  cases hkp : s.private_key_pem with
  | some pem =>
    have hst : (privateKeyPemAcc P s).st = s := by simp [privateKeyPemAcc, hkp]
    rw [hst]
    exact goodStep_refl P s
  | none =>
    cases hk : s.private_key with
    | none =>
      have hst : (privateKeyPemAcc P s).st = s := by
        simp [privateKeyPemAcc, hk, hkp]
      rw [hst]
      exact goodStep_refl P s
    | some raw =>
      cases hf : P.skToPem raw with
      | none =>
        have hst : (privateKeyPemAcc P s).st = s := by
          simp [privateKeyPemAcc, hk, hkp, hf]
        rw [hst]
        exact goodStep_refl P s
      | some pem =>
        have hst :
            (privateKeyPemAcc P s).st = { s with private_key_pem := some pem } := by
          simp [privateKeyPemAcc, hk, hkp, hf]
        rw [hst]
        exact ⟨Or.inl rfl, Or.inr ⟨hkp, raw, pem, hk, hf, rfl⟩, Or.inl rfl,
          Or.inl rfl⟩

/-- A successful `public_key` call leaves the `_public_key` slot holding the
returned point. -/
theorem pubAcc_ok_cached (P : ECPrimitive) (s : KeyState) (pub : Bytes)
    (h : (publicKeyAcc P s).res = RES.ok pub) :
    (publicKeyAcc P s).st.public_key = some pub := by
  have hsub :
      (publicFromPrivate P s).res = RES.ok pub →
        (publicFromPrivate P s).st.public_key = some pub := by
    intro he
    cases hpa : privateKeyAcc P s with
    | mk r s1 t =>
      cases r with
      | err e => simp [publicFromPrivate, hpa] at he
      | ok raw =>
        cases hie : raw.isEmpty with
        | true => simp [publicFromPrivate, hpa, hie] at he
        | false =>
          cases hd : P.derivePublic raw with
          | none => simp [publicFromPrivate, hpa, hie, hd] at he
          | some pub1 =>
            have hp1 : pub1 = pub := by
              simpa [publicFromPrivate, hpa, hie, hd] using he
            subst hp1
            simp [publicFromPrivate, hpa, hie, hd]
  cases hp : s.public_key with
  | some pub0 =>
    have hp0 : pub0 = pub := by simpa [publicKeyAcc, hp] using h
    subst hp0
    simp [publicKeyAcc, hp]
  | none =>
    cases hpp : s.public_key_pem with
    | none =>
      have he : (publicFromPrivate P s).res = RES.ok pub := by
        simpa [publicKeyAcc, hp, hpp] using h
      simpa [publicKeyAcc, hp, hpp] using hsub he
    | some pem =>
      cases hie : pem.isEmpty with
      | true =>
        have he : (publicFromPrivate P s).res = RES.ok pub := by
          simpa [publicKeyAcc, hp, hpp, hie] using h
        simpa [publicKeyAcc, hp, hpp, hie] using hsub he
      | false =>
        cases hv : P.vkFromPem pem with
        | none => simp [publicKeyAcc, hp, hpp, hie, hv] at h
        | some pub1 =>
          have hp1 : pub1 = pub := by
            simpa [publicKeyAcc, hp, hpp, hie, hv] using h
          subst hp1
          simp [publicKeyAcc, hp, hpp, hie, hv]

/-- The private-derivation tail of `public_key` makes a good step (given
that its result is the `public_key` result on the same state). -/
theorem goodStep_pubFromPriv (P : ECPrimitive) (s : KeyState)
    (h1 : s.public_key = none)
    (heq : (publicFromPrivate P s).res = (publicKeyAcc P s).res) :
    GoodStep P s (publicFromPrivate P s).st := by
  cases hpa : privateKeyAcc P s with
  | mk r s1 t =>
    have hg1 : GoodStep P s s1 := by
      have hg := goodStep_privAcc P s
      rwa [hpa] at hg
    cases r with
    | err e =>
      have hst : (publicFromPrivate P s).st = s1 := by simp [publicFromPrivate, hpa]
      rwa [hst]
    | ok raw =>
      cases hie : raw.isEmpty with
      | true =>
        have hst : (publicFromPrivate P s).st = s1 := by
          simp [publicFromPrivate, hpa, hie]
        rwa [hst]
      | false =>
        cases hd : P.derivePublic raw with
        | none =>
          have hst : (publicFromPrivate P s).st = s1 := by
            simp [publicFromPrivate, hpa, hie, hd]
          rwa [hst]
        | some pub =>
          have hst :
              (publicFromPrivate P s).st = { s1 with public_key := some pub } := by
            simp [publicFromPrivate, hpa, hie, hd]
          have hres : (publicKeyAcc P s).res = RES.ok pub := by
            rw [← heq]
            simp [publicFromPrivate, hpa, hie, hd]
          have hpem1 : s1.public_key_pem = s.public_key_pem := by
            have hfr := (privAcc_frame P s).2.1
            rwa [hpa] at hfr
          rw [hst]
          exact ⟨hg1.priv, hg1.privPem, Or.inr ⟨h1, pub, hres, rfl⟩, Or.inl hpem1⟩

/-- The `public_key` accessor makes a good step. -/
theorem goodStep_pubAcc (P : ECPrimitive) (s : KeyState) :
    GoodStep P s (publicKeyAcc P s).st := by
  cases hp : s.public_key with
  | some pub =>
    have hst : (publicKeyAcc P s).st = s := by simp [publicKeyAcc, hp]
    rw [hst]
    exact goodStep_refl P s
  | none =>
    cases hpp : s.public_key_pem with
    | none =>
      have h0 : publicKeyAcc P s = publicFromPrivate P s := by
        simp [publicKeyAcc, hp, hpp]
      rw [h0]
      exact goodStep_pubFromPriv P s hp (by rw [h0])
    | some pem =>
      cases hie : pem.isEmpty with
      | true =>
        have h0 : publicKeyAcc P s = publicFromPrivate P s := by
          simp [publicKeyAcc, hp, hpp, hie]
        rw [h0]
        exact goodStep_pubFromPriv P s hp (by rw [h0])
      | false =>
        cases hv : P.vkFromPem pem with
        | none =>
          have hst : (publicKeyAcc P s).st = s := by
            simp [publicKeyAcc, hp, hpp, hie, hv]
          rw [hst]
          exact goodStep_refl P s
        | some pub =>
          have hst : (publicKeyAcc P s).st = { s with public_key := some pub } := by
            simp [publicKeyAcc, hp, hpp, hie, hv]
          have hres : (publicKeyAcc P s).res = RES.ok pub := by
            simp [publicKeyAcc, hp, hpp, hie, hv]
          rw [hst]
          exact ⟨Or.inl rfl, Or.inl rfl, Or.inr ⟨hp, pub, hres, rfl⟩, Or.inl rfl⟩

/-- The `public_key_pem` accessor makes a good step. -/
theorem goodStep_pubPemAcc (P : ECPrimitive) (s : KeyState) :
    GoodStep P s (publicKeyPemAcc P s).st := by
  cases hpp : s.public_key_pem with
  | some pem =>
    have hst : (publicKeyPemAcc P s).st = s := by simp [publicKeyPemAcc, hpp]
    rw [hst]
    exact goodStep_refl P s
  | none =>
    cases hpk : publicKeyAcc P s with
    | mk r s1 t =>
      have hg1 : GoodStep P s s1 := by
        have hg := goodStep_pubAcc P s
        rwa [hpk] at hg
      cases r with
      | err e =>
        have hst : (publicKeyPemAcc P s).st = s1 := by
          simp [publicKeyPemAcc, hpp, hpk]
        rwa [hst]
      | ok pub =>
        cases hv : P.vkToPem pub with
        | none =>
          have hst : (publicKeyPemAcc P s).st = s1 := by
            simp [publicKeyPemAcc, hpp, hpk, hv]
          rwa [hst]
        | some pem2 =>
          have hst :
              (publicKeyPemAcc P s).st
                = { s1 with public_key_pem := some pem2 } := by
            simp [publicKeyPemAcc, hpp, hpk, hv]
          have hres : (publicKeyAcc P s).res = RES.ok pub := by rw [hpk]
          have hcache : s1.public_key = some pub := by
            have hc := pubAcc_ok_cached P s pub hres
            rwa [hpk] at hc
          rw [hst]
          exact ⟨hg1.priv, hg1.privPem, hg1.pub,
            Or.inr ⟨hpp, pub, pem2, hres, hv, rfl, hcache⟩⟩

/-- A `sign` call moves the state exactly as its inner `private_key` access
does. -/
theorem signOp_st (P : ECPrimitive) (s : KeyState) (data : Bytes) :
    (signOp P s data).st = (privateKeyAcc P s).st := by
  cases hpa : privateKeyAcc P s with
  | mk r s1 t =>
    cases r with
    | err e => simp [signOp, hpa]
    | ok raw => cases hsb : P.signBytes raw data <;> simp [signOp, hpa, hsb]

/-- A `sign` call makes a good step. -/
theorem goodStep_signOp (P : ECPrimitive) (s : KeyState) (data : Bytes) :
    GoodStep P s (signOp P s data).st := by
  rw [signOp_st]
  exact goodStep_privAcc P s

/-- Every observable operation makes a good step. -/
theorem goodStep_op (P : ECPrimitive) (s : KeyState) (o : Op) :
    GoodStep P s (runOp P o s).st := by
  cases o with
  | acc a =>
    cases a with
    | privPem => exact goodStep_privPemAcc P s
    | privRaw => exact goodStep_privAcc P s
    | pubPem => exact goodStep_pubPemAcc P s
    | pubRaw => exact goodStep_pubAcc P s
  | sign d => exact goodStep_signOp P s d

/-- Across a good step, the `private_key` result is unchanged. -/
theorem goodStep_privRes (P : ECPrimitive) (s t : KeyState)
    (hg : GoodStep P s t) :
    (privateKeyAcc P t).res = (privateKeyAcc P s).res := by
  rw [privateKeyAcc_res, privateKeyAcc_res]
  rcases hg.priv with h1 | ⟨hk, pem, raw, hkp, hf, ht⟩
  · rcases hg.privPem with h2 | ⟨hkp, raw, pem, hk, hf, ht⟩
    · rw [h1, h2]
    · rw [h1, hk]
      simp [privRes]
  · rcases hg.privPem with h2 | ⟨hkp2, raw2, pem2, hk2, hf2, ht2⟩
    · rw [ht, hk, h2, hkp]
      simp [privRes, hf]
    · exact absurd (hk.symm.trans hk2) (by simp)

/-- Across a good step, the `private_key_pem` result is unchanged. -/
theorem goodStep_privPemRes (P : ECPrimitive) (s t : KeyState)
    (hg : GoodStep P s t) :
    (privateKeyPemAcc P t).res = (privateKeyPemAcc P s).res := by
  rw [privateKeyPemAcc_res, privateKeyPemAcc_res]
  rcases hg.privPem with h1 | ⟨hkp, raw, pem, hk, hf, ht⟩
  · rcases hg.priv with h2 | ⟨hk, pem, raw, hkp, hf, ht⟩
    · rw [h1, h2]
    · rw [h1, hkp]
      simp [privPemRes]
  · rcases hg.priv with h2 | ⟨hk2, pem2, raw2, hkp2, hf2, ht2⟩
    · rw [ht, hkp, h2, hk]
      simp [privPemRes, hf]
    · exact absurd (hkp.symm.trans hkp2) (by simp)

/-- Across a good step, the `public_key` result is unchanged. -/
theorem goodStep_pubRes (P : ECPrimitive) (s t : KeyState)
    (hg : GoodStep P s t) :
    (publicKeyAcc P t).res = (publicKeyAcc P s).res := by
  have hpr := goodStep_privRes P s t hg
  rw [publicKeyAcc_res, publicKeyAcc_res, hpr]
  rcases hg.pub with h1 | ⟨hp, pub, hres, ht⟩
  · rcases hg.pubPem with h2 | ⟨hpp, pub, pem, hres, hv, htp, htpub⟩
    · rw [h1, h2]
    · have hsp : s.public_key = some pub := h1.symm.trans htpub
      rw [h1, hsp]
      simp [pubRes]
  · rw [ht]
    have hrhs :
        pubRes P s.public_key s.public_key_pem (privateKeyAcc P s).res
          = RES.ok pub := by
      rw [← publicKeyAcc_res]
      exact hres
    rw [hrhs]
    simp [pubRes]

/-- Across a good step, the `public_key_pem` result is unchanged. -/
theorem goodStep_pubPemRes (P : ECPrimitive) (s t : KeyState)
    (hg : GoodStep P s t) :
    (publicKeyPemAcc P t).res = (publicKeyPemAcc P s).res := by
  have hpub := goodStep_pubRes P s t hg
  rw [publicKeyPemAcc_res, publicKeyPemAcc_res, hpub]
  rcases hg.pubPem with h2 | ⟨hpp, pub, pem, hres, hv, htp, htpub⟩
  · rw [h2]
  · rw [htp, hpp, hres]
    simp [pubPemRes, hv]

/-- Across a good step, the `sign` result is unchanged. -/
theorem goodStep_signRes (P : ECPrimitive) (s t : KeyState)
    (hg : GoodStep P s t) (data : Bytes) :
    (signOp P t data).res = (signOp P s data).res := by
  rw [signOp_res, signOp_res, goodStep_privRes P s t hg]

/-- Across a good step, the result of every operation is unchanged. -/
theorem goodStep_res (P : ECPrimitive) (s t : KeyState)
    (hg : GoodStep P s t) (o : Op) :
    (runOp P o t).res = (runOp P o s).res := by
  cases o with
  | acc a =>
    cases a with
    | privPem => exact goodStep_privPemRes P s t hg
    | privRaw => exact goodStep_privRes P s t hg
    | pubPem => exact goodStep_pubPemRes P s t hg
    | pubRaw => exact goodStep_pubRes P s t hg
  | sign d => exact goodStep_signRes P s t hg d

/-- History independence: the result of any operation after any sequence of
prior operations equals its result on the freshly constructed object. -/
theorem runOps_res (P : ECPrimitive) (ops : List Op) (s : KeyState) (o : Op) :
    (runOp P o (runOps P ops s)).res = (runOp P o s).res := by
  induction ops generalizing s with
  | nil => rfl
  | cons o1 rest ih =>
    calc (runOp P o (runOps P rest (runOp P o1 s).st)).res
        = (runOp P o (runOp P o1 s).st).res := ih (runOp P o1 s).st
      _ = (runOp P o s).res := goodStep_res P s (runOp P o1 s).st
          (goodStep_op P s o1) o

/-- State extension: every slot that held a value still holds that same
value (slots move only absent→cached, are never cleared, and a cached value
is never replaced by a different one). -/
def Extends (s t : KeyState) : Prop :=
  (∀ v, s.private_key_pem = some v → t.private_key_pem = some v) ∧
  (∀ v, s.private_key = some v → t.private_key = some v) ∧
  (∀ v, s.public_key_pem = some v → t.public_key_pem = some v) ∧
  (∀ v, s.public_key = some v → t.public_key = some v)

/-- Extension is reflexive. -/
theorem extends_refl (s : KeyState) : Extends s s :=
  ⟨fun _ h => h, fun _ h => h, fun _ h => h, fun _ h => h⟩

/-- Extension is transitive. -/
theorem extends_trans (s t u : KeyState) (h1 : Extends s t) (h2 : Extends t u) :
    Extends s u :=
  ⟨fun v h => h2.1 v (h1.1 v h), fun v h => h2.2.1 v (h1.2.1 v h),
   fun v h => h2.2.2.1 v (h1.2.2.1 v h), fun v h => h2.2.2.2 v (h1.2.2.2 v h)⟩

/-- A good step only fills absent slots: it extends the state. -/
theorem goodStep_extends (P : ECPrimitive) (s t : KeyState)
    (hg : GoodStep P s t) : Extends s t := by
  refine ⟨fun v hv => ?_, fun v hv => ?_, fun v hv => ?_, fun v hv => ?_⟩
  · rcases hg.privPem with h | ⟨hn, _, _, _, _, _⟩
    · exact h.trans hv
    · exact absurd (hv.symm.trans hn) (by simp)
  · rcases hg.priv with h | ⟨hn, _, _, _, _, _⟩
    · exact h.trans hv
    · exact absurd (hv.symm.trans hn) (by simp)
  · rcases hg.pubPem with h | ⟨hn, _, _, _, _, _, _⟩
    · exact h.trans hv
    · exact absurd (hv.symm.trans hn) (by simp)
  · rcases hg.pub with h | ⟨hn, _, _, _⟩
    · exact h.trans hv
    · exact absurd (hv.symm.trans hn) (by simp)

/-- Claim C4: over any sequence of accessor and `sign` calls, each of the
four slots only ever transitions from absent to cached: once a slot holds a
value, no later operation clears or overwrites it. -/
theorem spec_C4 (P : ECPrimitive) (ops : List Op) (s : KeyState) :
    Extends s (runOps P ops s) := by
  induction ops generalizing s with
  | nil => exact extends_refl s
  | cons o rest ih =>
    exact extends_trans s (runOp P o s).st (runOps P rest (runOp P o s).st)
      (goodStep_extends P s (runOp P o s).st (goodStep_op P s o))
      (ih (runOp P o s).st)

/-- Claim C6: the value (or error) returned by any accessor or `sign` call
is independent of the order and number of prior calls on the same object —
any two histories of calls, in particular any permutation of one sequence
and any number of repetitions, leave every operation returning the same
result. -/
theorem spec_C6 (P : ECPrimitive) (s : KeyState) (ops1 ops2 : List Op) (o : Op) :
    (runOp P o (runOps P ops1 s)).res = (runOp P o (runOps P ops2 s)).res :=
  (runOps_res P ops1 s o).trans (runOps_res P ops2 s o).symm

end Secp256k1
